import Mathlib

/-!
Shallow embedding of the PEdit repository (`src/pedit`), covering
`ImageCanvas`, `NewCanvasDialog`, the custom tab strip
(`_ImageCanvasTabBar` and `_ImageCanvasTabWidget` in `ui/image_pane.py`),
`ImagePane`, and the theme palette (`core/theme.py`), together with
theorems checking the specification's claims against these definitions.

Python integers are modelled by `Int`; the float arithmetic in
`_compute_canvas_rect` is modelled exactly over `ℚ` (the spec states the
geometry in exact arithmetic); Python's `int(...)` truncation toward zero
is `pyInt` and Python's floor division `//` is `pyFloorDiv`.
-/

namespace PEdit

/-! ### ImageCanvas: aspect-ratio API (`ui/image_pane.py`, class ImageCanvas) -/

/-- Model of `ImageCanvas.DEFAULT_ASPECTS`: the fixed preset list. -/
def DEFAULT_ASPECTS : List (Int × Int) :=
  [(1, 1), (3, 2), (4, 3), (5, 4), (16, 9), (9, 16)]

/-- Model of `ImageCanvas.setAspectRatio(w, h)`: returns the new stored aspect.
Non-positive components are rejected (the stored aspect is unchanged). -/
def setAspectRatio (cur : Int × Int) (w h : Int) : Int × Int :=
  if w ≤ 0 ∨ h ≤ 0 then cur else (w, h)

/-- Python's `list.index`, with `ValueError` modelled as `none`:
index of the first element satisfying `p`. -/
def listFind {α : Type} (p : α → Bool) : List α → Option Nat
  | [] => none
  | x :: xs => if p x then some 0 else (listFind p xs).map (· + 1)

/-- Model of `ImageCanvas.cycleAspectRatio`: advance to the next preset
(`DEFAULT_ASPECTS[(idx + 1) % len]`), falling back to
`DEFAULT_ASPECTS[0]` when the current aspect is not in the list
(the `except ValueError` branch). -/
def cycleAspectRatio (asp : Int × Int) : Int × Int :=
  match listFind (fun x => x == asp) DEFAULT_ASPECTS with
  | some idx => DEFAULT_ASPECTS.getD ((idx + 1) % DEFAULT_ASPECTS.length) (1, 1)
  | none => DEFAULT_ASPECTS.getD 0 (1, 1)

/-! ### ImageCanvas: geometry (`_compute_canvas_rect`) -/

/-- Rectangle with origin and size, as `QRect(x, y, w, h)`. -/
structure Rect where
  x : Int
  y : Int
  w : Int
  h : Int
deriving DecidableEq, Repr

/-- Python's `int(q)` applied to an exact rational: truncation toward zero. -/
def pyInt (q : ℚ) : Int := q.num.tdiv (q.den : Int)

/-- Python's integer floor division `a // b`. -/
def pyFloorDiv (a b : Int) : Int := Int.fdiv a b

/-- Model of `ImageCanvas._compute_canvas_rect`, with `avail = contentsRect()` and
`aspect = self._aspect`.  The float arithmetic of the source is modelled
exactly over `ℚ`. -/
def compute_canvas_rect (avail : Rect) (aspect : Int × Int) : Rect :=
  let aw := avail.w
  let ah := avail.h
  let rw := aspect.1
  let rh := aspect.2
  if rw = 0 ∨ rh = 0 ∨ aw ≤ 0 ∨ ah ≤ 0 then avail
  else
    let scale : ℚ := min ((aw : ℚ) / (rw : ℚ)) ((ah : ℚ) / (rh : ℚ))
    let cw := pyInt ((rw : ℚ) * scale)
    let ch := pyInt ((rh : ℚ) * scale)
    ⟨avail.x + pyFloorDiv (aw - cw) 2, avail.y + pyFloorDiv (ah - ch) 2, cw, ch⟩

/-! ### NewCanvasDialog: name trimming and accept/cancel outcome -/

/-- Whitespace characters stripped by Python's `str.strip()` (the ASCII ones;
labels in this program are ASCII). -/
def isPySpace (c : Char) : Bool :=
  c = ' ' || c = '\t' || c = '\n' || c = '\r' || c = '\x0B' || c = '\x0C'

/-- Python's `s.strip()`: drop whitespace from both ends. -/
def pyStrip (s : String) : String :=
  String.mk (((s.toList.dropWhile isPySpace).reverse.dropWhile isPySpace).reverse)

/-- Model of `NewCanvasDialog.selectedName`: `self.name_edit.text().strip() or "Untitled"`
(a falsy — empty — stripped string falls back to `"Untitled"`). -/
def selectedName (nameFieldText : String) : String :=
  let t := pyStrip nameFieldText
  if t = "" then "Untitled" else t

/-- Model of `NewCanvasDialog._selected_ratio` after a sequence of
`aspectCardClicked` calls: initialised to `(1, 1)` in `__init__`, each click
overwrites it with the clicked card's ratio. -/
def dialogSelectedRatio (clicks : List (Int × Int)) : Int × Int :=
  clicks.foldl (fun _ r => r) (1, 1)

/-! ### Theme (`core/theme.py`) -/

/-- The `DarkTheme` dataclass: named color fields. -/
structure DarkTheme where
  COLOR_PRIMARY : String
  COLOR_SECONDARY : String
  COLOR_BACKGROUND : String
  COLOR_SURFACE : String
  COLOR_BACKGROUND_ALT : String
  COLOR_SURFACE_LIGHT : String
  COLOR_BACKGROUND_DEEP : String
  COLOR_TEXT_PRIMARY : String
  COLOR_TEXT_SECONDARY : String
  COLOR_BORDER : String
  COLOR_SUCCESS : String
  COLOR_WARNING : String
  COLOR_ERROR : String
  COLOR_INFO : String
deriving DecidableEq, Repr

/-- Model of `color_theme = DarkTheme()`: the module-level palette, built once with
the dataclass defaults. -/
def color_theme : DarkTheme :=
  { COLOR_PRIMARY := "#58a6ff"
    COLOR_SECONDARY := "#56d364"
    COLOR_BACKGROUND := "#0d1117"
    COLOR_SURFACE := "#161b22"
    COLOR_BACKGROUND_ALT := "#1c2128"
    COLOR_SURFACE_LIGHT := "#21262d"
    COLOR_BACKGROUND_DEEP := "#010409"
    COLOR_TEXT_PRIMARY := "#e6edf3"
    COLOR_TEXT_SECONDARY := "#7d8590"
    COLOR_BORDER := "#30363d"
    COLOR_SUCCESS := "#56d364"
    COLOR_WARNING := "#e3b341"
    COLOR_ERROR := "#f85149"
    COLOR_INFO := "#58a6ff" }

/-! ### The tab strip

State of `_ImageCanvasTabWidget` (a `QTabWidget` holding `ImageCanvas` pages
plus the single persistent `_plus_page` sentinel), together with the host
toolkit behaviour the widget relies on.  The Qt primitives (`insertTab`,
`removeTab`, `moveTab`, `setCurrentIndex`, `addTab`) are modelled after the
toolkit contract the spec lists as consumed operations: insert-at (appending
on an out-of-range index, silently shifting the current index), remove-at
(select-right-tab behaviour for the removed current tab), move-to (the
current page follows), set-current (in-range only, emitting `currentChanged`
when the index changes and signals are not blocked). -/

/-- A page hosted by the tab widget: an `ImageCanvas` document
(distinguished by object identity, here an id) or the `_plus_page`
sentinel `QWidget`.  No other page kind is ever inserted by the program. -/
inductive Page where
  | canvas (id : Nat)
  | plus
deriving DecidableEq, Repr

/-- One tab entry: its page object and its tab text. -/
structure Tab where
  page : Page
  label : String
deriving DecidableEq, Repr

/-- The sentinel tab as created in `__init__` / `_ensurePlusTab`:
the `_plus_page` widget with text `"+"`. -/
def plusTab : Tab := ⟨Page.plus, "+"⟩

/-- Signals observable outside the widget. -/
inductive Event where
  | currentChanged (i : Int)
  | plusClicked
deriving DecidableEq, Repr

/-- State of the tab widget: tab list, current index, the
`_adjusting_tab_order` reentrancy flag and the two `blockSignals` flags
(on the `QTabWidget` itself and on its `QTabBar`). -/
structure Strip where
  tabs : List Tab
  current : Int
  adjusting : Bool
  blockedSelf : Bool
  blockedBar : Bool
deriving DecidableEq, Repr

/-- Model of `self.count()`. -/
def Strip.count (s : Strip) : Int := (s.tabs.length : Int)

/-- Model of `self.widget(i)`: the page at index `i`, `none` (null) when out of range. -/
def Strip.widgetAt (s : Strip) (i : Int) : Option Page :=
  if 0 ≤ i then (s.tabs[i.toNat]?).map (·.page) else none

/-- Model of `self.tabText(i)` (as an `Option`: `none` for out of range, where Qt
returns an empty string). -/
def Strip.labelAt (s : Strip) (i : Int) : Option String :=
  if 0 ≤ i then (s.tabs[i.toNat]?).map (·.label) else none

/-- Model of `self.setTabText(i, text)`: update the label at a valid index. -/
def Strip.setTabText (s : Strip) (i : Int) (text : String) : Strip :=
  if 0 ≤ i ∧ i < s.count then
    { s with tabs := s.tabs.modify (fun t => { t with label := text }) i.toNat }
  else s

/-- Whether `currentChanged` emissions reach outside listeners: the
`QTabWidget` re-emits its bar's signal, so blocking either object
suppresses the notification. -/
def Strip.emitting (s : Strip) : Bool := !s.blockedSelf && !s.blockedBar

/-- Model of `self.setCurrentIndex(i)`: in range and different from the current
index, the current index is updated and `currentChanged i` is emitted
(unless signals are blocked); otherwise nothing happens. -/
def setCurrentIndex (s : Strip) (i : Int) : Strip × List Event :=
  if 0 ≤ i ∧ i < s.count ∧ i ≠ s.current then
    ({ s with current := i },
      if s.emitting then [Event.currentChanged i] else [])
  else (s, [])

/-- Model of `super().addTab(w, label)`: append; if the widget was empty the new tab
becomes current (with a `currentChanged 0` notification). -/
def addTabQt (s : Strip) (t : Tab) : Strip × List Event :=
  if s.tabs.length = 0 then
    ({ s with tabs := [t], current := 0 },
      if s.emitting then [Event.currentChanged 0] else [])
  else ({ s with tabs := s.tabs ++ [t] }, [])

/-- Model of `self.insertTab(i, w, label)`: insert at `i` (append when `i` is out of
range), returning the actual position; inserting at or before the current
index silently shifts the current index right so the current page is
unchanged. -/
def insertTabQt (s : Strip) (i : Int) (t : Tab) : Strip × Int × List Event :=
  if s.tabs.length = 0 then
    ({ s with tabs := [t], current := 0 }, 0,
      if s.emitting then [Event.currentChanged 0] else [])
  else
    let pos : Nat := if 0 ≤ i ∧ i ≤ s.count then i.toNat else s.tabs.length
    let cur' := if (pos : Int) ≤ s.current then s.current + 1 else s.current
    ({ s with tabs := s.tabs.insertIdx pos t, current := cur' }, (pos : Int), [])

/-- Model of `self.removeTab(i)`: remove the tab at a valid index.  A removed tab
strictly below the current one shifts the current index down; removing the
current tab selects the tab that was to its right (`SelectRightTab`, the
`QTabBar` default), i.e. the same index clamped to the new last index, or
`-1` when the widget becomes empty.  A change of the current index emits
`currentChanged` unless signals are blocked. -/
def removeTabQt (s : Strip) (i : Int) : Strip × List Event :=
  if 0 ≤ i ∧ i < s.count then
    let tabs' := s.tabs.eraseIdx i.toNat
    let cur' :=
      if i < s.current then s.current - 1
      else if i = s.current then min i ((tabs'.length : Int) - 1)
      else s.current
    ({ s with tabs := tabs', current := cur' },
      if cur' ≠ s.current ∧ s.emitting then [Event.currentChanged cur'] else [])
  else (s, [])

/-- List move: take the element at `f` out and re-insert it at `t`
(`QTabBar::moveTab`'s effect on the tab order). -/
def listMove {α : Type} (l : List α) (f t : Nat) : List α :=
  match l[f]? with
  | none => l
  | some x => (l.eraseIdx f).insertIdx t x

/-- Adjustment of the current index under a move: the current page stays
current. -/
def moveAdjust (cur f t : Int) : Int :=
  if cur = f then t
  else if f < cur ∧ cur ≤ t then cur - 1
  else if t ≤ cur ∧ cur < f then cur + 1
  else cur

/-- Model of `self.tabBar().moveTab(f, t)` without the `tabMoved` signal dispatch:
valid distinct indices reorder the tabs, the current page follows, no
`currentChanged` is emitted. -/
def moveTabPure (s : Strip) (f t : Int) : Strip :=
  if 0 ≤ f ∧ f < s.count ∧ 0 ≤ t ∧ t < s.count ∧ f ≠ t then
    { s with tabs := listMove s.tabs f.toNat t.toNat,
             current := moveAdjust s.current f t }
  else s

/-- Model of `self._plusIndex()`: `indexOf(self._plus_page)`, `-1` when absent. -/
def Strip.plusIdx (s : Strip) : Int :=
  match listFind (fun t => t.page == Page.plus) s.tabs with
  | some i => (i : Nat)
  | none => -1

/-- Model of `_onTabMoved(from, to)` with the `tabMoved` signal dispatched to the
connected handler made explicit: the corrective `moveTab` fires `tabMoved`
again, re-entering this handler (modelled by the fuel-indexed recursive
call), which the `_adjusting_tab_order` guard cuts off immediately. -/
def onTabMoved : Nat → Strip → Strip
  | 0, s => s
  | fuel + 1, s =>
    if s.adjusting then s
    else
      let pi := s.plusIdx
      if pi = -1 then s
      else
        let last := s.count - 1
        if pi ≠ last then
          let s1 := moveTabPure { s with adjusting := true } pi last
          let s2 := if s1.blockedBar then s1 else onTabMoved fuel s1
          { s2 with adjusting := false }
        else s

/-- Model of `_configurePlusTab`: make `+` non-closable (no state in this model),
reset its text to `"+"`, and pin it to the last position (under the
reentrancy guard; the corrective `moveTab`'s `tabMoved` dispatch is again
explicit). -/
def configurePlusTab (s : Strip) : Strip :=
  let pi := s.plusIdx
  if pi = -1 then s
  else
    let s1 := s.setTabText pi "+"
    let last := s1.count - 1
    if pi ≠ last then
      let s2 := moveTabPure { s1 with adjusting := true } pi last
      let s3 := if s2.blockedBar then s2 else onTabMoved 2 s2
      { s3 with adjusting := false }
    else s1

/-- Model of `_ensurePlusTab`: re-create the `+` page if it is gone
(`super().addTab`, which in this flow never finds an empty widget), then
configure and pin it. -/
def ensurePlusTab (s : Strip) : Strip :=
  let s' :=
    if s.plusIdx = -1 then (addTabQt s plusTab).1
    else s
  configurePlusTab s'

/-- Model of `self.realTabCount()`: count the pages that are `ImageCanvas` instances
and not the `_plus_page`. -/
def Strip.realTabCount (s : Strip) : Nat :=
  s.tabs.countP (fun t => match t.page with | Page.canvas _ => true | Page.plus => false)

/-- Model of `insertCanvasTab(canvas, label)`: ensure and locate `+`, insert the new
canvas right before it, select it, re-pin `+`, and return the insertion
index (together with the emitted notifications). -/
def insertCanvasTab (s : Strip) (cid : Nat) (label : String) :
    Strip × Int × List Event :=
  let s0 := ensurePlusTab s
  let pi := s0.plusIdx
  let r1 :=
    if pi ≠ -1 then insertTabQt s0 pi ⟨Page.canvas cid, label⟩
    else
      let (s', e') := addTabQt s0 ⟨Page.canvas cid, label⟩
      (s', s'.count - 1, e')
  let (s2, e2) := setCurrentIndex r1.1 r1.2.1
  (configurePlusTab s2, r1.2.1, r1.2.2 ++ e2)

/-- Model of `_onClose(index)`: ignore null pages, the `+` page and non-canvas
pages; otherwise remove the tab with both `blockSignals` guards taken and
restored in `finally`, re-ensure `+`, and when documents remain select the
neighbour `min(index, count-1)`, stepped one left if that slot is the `+`
page. -/
def onClose (s : Strip) (index : Int) : Strip × List Event :=
  match s.widgetAt index with
  | none => (s, [])
  | some Page.plus => (s, [])
  | some (Page.canvas _) =>
    let wasSelf := s.blockedSelf
    let wasBar := s.blockedBar
    let sB := { s with blockedSelf := true, blockedBar := true }
    let (sR, eR) := removeTabQt sB index
    let sU := { sR with blockedSelf := wasSelf, blockedBar := wasBar }
    let sE := ensurePlusTab sU
    if 0 < sE.realTabCount then
      let target0 : Int := min index (sE.count - 1)
      let target :=
        if sE.widgetAt target0 = some Page.plus ∧ 0 ≤ target0 - 1 then target0 - 1
        else target0
      let (sF, eF) := setCurrentIndex sE target
      (sF, eR ++ eF)
    else (sE, eR)

/-- A completed user drag of the tab at `f` to position `t`: the bar
performs the move, then emits `tabMoved`, which runs `_onTabMoved`. -/
def userDragMove (s : Strip) (f t : Int) : Strip :=
  if 0 ≤ f ∧ f < s.count ∧ 0 ≤ t ∧ t < s.count ∧ f ≠ t then
    let s1 := moveTabPure s f t
    if s1.blockedBar then s1 else onTabMoved 2 s1
  else s

/-- Model of `_ImageCanvasTabBar.isPlusIndex(index)`: the bar recognises the `+`
trigger purely by tab text. -/
def isPlusIndex (s : Strip) (i : Int) : Bool :=
  decide (0 ≤ i ∧ i < s.count) && (s.labelAt i == some "+")

/-- Model of `_ImageCanvasTabBar.mousePressEvent` on the tab at index `i` (`-1` for
a press outside every tab): a press on a `+`-labelled tab emits
`plusClicked` and is consumed; otherwise the base class selects the pressed
tab. -/
def mousePress (s : Strip) (i : Int) : Strip × List Event :=
  if isPlusIndex s i then (s, [Event.plusClicked])
  else if 0 ≤ i ∧ i < s.count then setCurrentIndex s i
  else (s, [])

/-- Model of `ImagePane.renameCurrentTab(new_name)`: rename the current tab when its
index is below `realTabCount()`. -/
def renameCurrentTab (s : Strip) (newName : String) : Strip :=
  let i := s.current
  if 0 ≤ i ∧ i < (s.realTabCount : Int) then s.setTabText i newName
  else s

/-- The widget state right after `_ImageCanvasTabWidget.__init__`: the
single `+` tab, current index `0`, all flags clear. -/
def initialStrip : Strip :=
  ⟨[plusTab], 0, false, false, false⟩

/-! ### Dialog outcome and the pane-level operations -/

/-- Outcome of running `NewCanvasDialog`: `exec()` returned `Accepted` with
the name field holding `nameField` and `_selected_ratio = ratio`, or the
dialog was cancelled. -/
inductive DialogResult where
  | accepted (nameField : String) (ratio : Int × Int)
  | cancelled
deriving DecidableEq, Repr

/-- Model of `ImagePane.promptNewCanvas`: `(dlg.selectedName(), dlg.selectedAspect())`
on accept, `None` on cancel. -/
def promptNewCanvas : DialogResult → Option (String × (Int × Int))
  | DialogResult.accepted nameField ratio => some (selectedName nameField, ratio)
  | DialogResult.cancelled => none

/-- Application-level state: the tab strip, each canvas's stored aspect
ratio (by canvas id), a fresh-id counter, and the process-wide theme
palette. -/
structure App where
  strip : Strip
  aspects : Nat → Int × Int
  nextId : Nat
  theme : DarkTheme

/-- Model of `ImagePane.addNewCanvasTab(label, aspect)`: build an `ImageCanvas` with
the given aspect, insert it via `insertCanvasTab`, and re-select the
returned index. -/
def App.addNewCanvasTab (a : App) (label : String) (aspect : Int × Int) : App :=
  let cid := a.nextId
  let r := insertCanvasTab a.strip cid label
  let strip' := (setCurrentIndex r.1 r.2.1).1
  { a with strip := strip',
           aspects := fun n => if n = cid then aspect else a.aspects n,
           nextId := cid + 1 }

/-- Model of `ImagePane.createCanvasViaDialog`: run the dialog; on cancel do
nothing, on accept add a tab with the returned name and aspect. -/
def App.createCanvasViaDialog (a : App) (r : DialogResult) : App :=
  match promptNewCanvas r with
  | none => a
  | some (name, aspect) => a.addNewCanvasTab name aspect

/-- Model of `ImagePane.currentCanvas()`: the current page when it is an
`ImageCanvas`. -/
def App.currentCanvas (a : App) : Option Nat :=
  match a.strip.widgetAt a.strip.current with
  | some (Page.canvas id) => some id
  | _ => none

/-- Every operation of the program that the UI can invoke. -/
inductive AppOp where
  | addTab (label : String) (aspect : Int × Int)
  | closeTab (i : Int)
  | dragTab (f t : Int)
  | renameCurrent (name : String)
  | pressTab (i : Int)
  | setCurrentAspect (w h : Int)
  | cycleCurrentAspect
  | newCanvasDialog (r : DialogResult)

/-- Interpretation of one program operation on the application state. -/
def App.applyOp (a : App) : AppOp → App
  | AppOp.addTab label aspect => a.addNewCanvasTab label aspect
  | AppOp.closeTab i => { a with strip := (onClose a.strip i).1 }
  | AppOp.dragTab f t => { a with strip := userDragMove a.strip f t }
  | AppOp.renameCurrent name => { a with strip := renameCurrentTab a.strip name }
  | AppOp.pressTab i => { a with strip := (mousePress a.strip i).1 }
  | AppOp.setCurrentAspect w h =>
    match a.currentCanvas with
    | some cid =>
      { a with aspects := fun n =>
          if n = cid then setAspectRatio (a.aspects cid) w h else a.aspects n }
    | none => a
  | AppOp.cycleCurrentAspect =>
    match a.currentCanvas with
    | some cid =>
      { a with aspects := fun n =>
          if n = cid then cycleAspectRatio (a.aspects cid) else a.aspects n }
    | none => a
  | AppOp.newCanvasDialog r => a.createCanvasViaDialog r

/-- Application state at startup: the fresh tab widget and the
once-initialised theme palette. -/
def initialApp : App :=
  ⟨initialStrip, fun _ => (1, 1), 0, color_theme⟩

/-- The tab-strip operations claim C1 quantifies over. -/
inductive Op where
  | insert (cid : Nat) (label : String)
  | close (i : Int)
  | drag (f t : Int)

/-- Interpretation of one tab-strip operation. -/
def applyOp (s : Strip) : Op → Strip
  | Op.insert cid label => (insertCanvasTab s cid label).1
  | Op.close i => (onClose s i).1
  | Op.drag f t => userDragMove s f t

/-! ### Invariant and helper lemmas -/

/-- A tab holding an `ImageCanvas` page. -/
def IsCanvasTab (t : Tab) : Prop := ∃ id, t.page = Page.canvas id

/-- Every tab in the list is a document tab. -/
def AllCanvas (l : List Tab) : Prop := ∀ t ∈ l, IsCanvasTab t

/-- The spec's tab-strip invariant: the sentinel tab is present as the last
entry, every entry before it is a document, and the reentrancy and
signal-blocking flags are clear between user gestures. -/
def Inv (s : Strip) : Prop :=
  (∃ docs, AllCanvas docs ∧ s.tabs = docs ++ [plusTab]) ∧
  s.adjusting = false ∧ s.blockedSelf = false ∧ s.blockedBar = false

lemma listFind_append_cons {α : Type} (p : α → Bool) (l₁ : List α) (x : α)
    (l₂ : List α) (h1 : ∀ a ∈ l₁, p a = false) (hx : p x = true) :
    listFind p (l₁ ++ x :: l₂) = some l₁.length := by
  induction l₁ with
  | nil => simp [listFind, hx]
  | cons a l ih =>
    have ha : p a = false := h1 a (by simp)
    simp [listFind, ha, ih (fun b hb => h1 b (by simp [hb]))]

lemma eraseIdx_append_cons_length {α : Type} (l₁ : List α) (x : α) (l₂ : List α) :
    (l₁ ++ x :: l₂).eraseIdx l₁.length = l₁ ++ l₂ := by
  induction l₁ with
  | nil => simp
  | cons a l ih => simpa using ih

lemma eraseIdx_append_lt {α : Type} (l₁ l₂ : List α) (n : Nat) (h : n < l₁.length) :
    (l₁ ++ l₂).eraseIdx n = l₁.eraseIdx n ++ l₂ := by
  induction l₁ generalizing n with
  | nil => simp at h
  | cons a l ih =>
    cases n with
    | zero => simp
    | succ m => simpa using ih m (by simpa using h)

lemma insertIdx_append_le {α : Type} (l₁ l₂ : List α) (x : α) (n : Nat)
    (h : n ≤ l₁.length) :
    List.insertIdx n x (l₁ ++ l₂) = List.insertIdx n x l₁ ++ l₂ := by
  induction l₁ generalizing n with
  | nil =>
    obtain rfl : n = 0 := Nat.le_zero.mp h
    simp
  | cons a l ih =>
    cases n with
    | zero => simp
    | succ m => simpa [List.insertIdx_succ_cons] using ih m (by simpa using h)

lemma insertIdx_take_drop {α : Type} (l : List α) (x : α) (n : Nat) (h : n ≤ l.length) :
    List.insertIdx n x l = l.take n ++ x :: l.drop n := by
  induction l generalizing n with
  | nil =>
    obtain rfl : n = 0 := Nat.le_zero.mp h
    simp
  | cons a l ih =>
    cases n with
    | zero => simp
    | succ m => simpa [List.insertIdx_succ_cons] using ih m (by simpa using h)

lemma getElem?_append_cons_length {α : Type} (l₁ : List α) (x : α) (l₂ : List α) :
    (l₁ ++ x :: l₂)[l₁.length]? = some x := by
  induction l₁ with
  | nil => simp
  | cons a l ih => simpa using ih

lemma modify_append_cons_length {α : Type} (f : α → α) (l₁ : List α) (x : α)
    (l₂ : List α) :
    (l₁ ++ x :: l₂).modify f l₁.length = l₁ ++ f x :: l₂ := by
  induction l₁ with
  | nil => simp
  | cons a l ih => simpa using ih

lemma isCanvas_not_plus {t : Tab} (h : IsCanvasTab t) :
    (t.page == Page.plus) = false := by
  obtain ⟨id, hid⟩ := h
  simp [hid]

/-- Under the invariant decomposition, `_plusIndex` is the index of the
last tab. -/
lemma plusIdx_append {docs : List Tab} {l₂ : List Tab} (hd : AllCanvas docs)
    {s : Strip} (hs : s.tabs = docs ++ plusTab :: l₂) :
    s.plusIdx = (docs.length : Int) := by
  unfold Strip.plusIdx
  rw [hs, listFind_append_cons _ _ _ _ (fun a ha => isCanvas_not_plus (hd a ha)) (by rfl)]

/-- Setting the sentinel tab's text to `"+"` changes nothing when it
already reads `"+"`. -/
lemma setTabText_plus (docs : List Tab) (cur : Int) (adj bs bb : Bool) :
    Strip.setTabText ⟨docs ++ [plusTab], cur, adj, bs, bb⟩ (docs.length : Int) "+" =
      ⟨docs ++ [plusTab], cur, adj, bs, bb⟩ := by
  have h : (docs ++ [plusTab]).modify (fun t => { t with label := "+" })
      docs.length = docs ++ [plusTab] := by
    have := modify_append_cons_length (fun t => { t with label := "+" }) docs plusTab []
    simpa [plusTab] using this
  simp only [Strip.setTabText, Strip.count]
  rw [if_pos (by simp only [List.length_append, List.length_cons,
    List.length_nil]; omega)]
  simp only [Int.toNat_natCast, h]

/-- The step `_configurePlusTab` is the identity when the sentinel is already the
last tab with text `"+"`. -/
lemma configurePlusTab_id (docs : List Tab) (hd : AllCanvas docs) (cur : Int)
    (adj bs bb : Bool) :
    configurePlusTab ⟨docs ++ [plusTab], cur, adj, bs, bb⟩ =
      ⟨docs ++ [plusTab], cur, adj, bs, bb⟩ := by
  have hp : Strip.plusIdx ⟨docs ++ [plusTab], cur, adj, bs, bb⟩ = (docs.length : Int) :=
    plusIdx_append hd rfl
  simp only [configurePlusTab, hp]
  rw [if_neg (by omega), setTabText_plus]
  rw [if_neg (by simp only [Strip.count, List.length_append, List.length_cons,
    List.length_nil]; push_cast; omega)]

/-- The step `_ensurePlusTab` is the identity when the sentinel is already pinned. -/
lemma ensurePlusTab_id (docs : List Tab) (hd : AllCanvas docs) (cur : Int)
    (adj bs bb : Bool) :
    ensurePlusTab ⟨docs ++ [plusTab], cur, adj, bs, bb⟩ =
      ⟨docs ++ [plusTab], cur, adj, bs, bb⟩ := by
  have hp : Strip.plusIdx ⟨docs ++ [plusTab], cur, adj, bs, bb⟩ = (docs.length : Int) :=
    plusIdx_append hd rfl
  simp only [ensurePlusTab, hp]
  rw [if_neg (by omega)]
  exact configurePlusTab_id docs hd cur adj bs bb

/-- Step: `insertTab` right before the sentinel inserts there, keeps the
current page current (index shift only) and emits nothing. -/
lemma insertTabQt_spec (docs : List Tab) (cur : Int) (bs bb : Bool) (cid : Nat)
    (label : String) :
    insertTabQt ⟨docs ++ [plusTab], cur, false, bs, bb⟩ (docs.length : Int)
        ⟨Page.canvas cid, label⟩ =
      (⟨docs ++ ⟨Page.canvas cid, label⟩ :: [plusTab],
          if (docs.length : Int) ≤ cur then cur + 1 else cur, false, bs, bb⟩,
        (docs.length : Int), []) := by
  have hins : List.insertIdx docs.length (⟨Page.canvas cid, label⟩ : Tab)
      (docs ++ [plusTab]) = docs ++ ⟨Page.canvas cid, label⟩ :: [plusTab] := by
    rw [insertIdx_take_drop _ _ _ (by simp), List.take_left, List.drop_left]
  simp only [insertTabQt, Strip.count]
  rw [if_neg (by simp)]
  rw [if_pos (by
    refine ⟨by omega, ?_⟩
    simp only [List.length_append, List.length_cons, List.length_nil]
    push_cast
    omega)]
  simp only [Int.toNat_natCast, hins]

/-- Characterisation of `insertCanvasTab` on an invariant state: the new
tab goes right before the sentinel, is selected, the sentinel stays last,
the returned index is the new tab's position, and exactly one
`currentChanged` notification is emitted. -/
lemma insertCanvasTab_spec (docs : List Tab) (hd : AllCanvas docs) (cur : Int)
    (cid : Nat) (label : String) :
    insertCanvasTab ⟨docs ++ [plusTab], cur, false, false, false⟩ cid label =
      (⟨docs ++ ⟨Page.canvas cid, label⟩ :: [plusTab], (docs.length : Int),
          false, false, false⟩,
        (docs.length : Int), [Event.currentChanged (docs.length : Int)]) := by
  have hall : AllCanvas (docs ++ [⟨Page.canvas cid, label⟩]) := by
    intro t ht
    rcases List.mem_append.mp ht with h | h
    · exact hd t h
    · simp only [List.mem_singleton] at h
      exact ⟨cid, by simp [h]⟩
  have hconf : configurePlusTab ⟨docs ++ ⟨Page.canvas cid, label⟩ :: [plusTab],
      (docs.length : Int), false, false, false⟩ =
      ⟨docs ++ ⟨Page.canvas cid, label⟩ :: [plusTab], (docs.length : Int),
        false, false, false⟩ := by
    have := configurePlusTab_id (docs ++ [⟨Page.canvas cid, label⟩]) hall
      (docs.length : Int) false false false
    simpa using this
  have hset : setCurrentIndex ⟨docs ++ ⟨Page.canvas cid, label⟩ :: [plusTab],
      if (docs.length : Int) ≤ cur then cur + 1 else cur, false, false, false⟩
      (docs.length : Int) =
      (⟨docs ++ ⟨Page.canvas cid, label⟩ :: [plusTab], (docs.length : Int),
          false, false, false⟩, [Event.currentChanged (docs.length : Int)]) := by
    simp only [setCurrentIndex, Strip.count]
    rw [if_pos (by refine ⟨by omega, by (simp only [List.length_append,
      List.length_cons, List.length_nil]; push_cast; omega), by split <;> omega⟩)]
    simp [Strip.emitting]
  have hp : Strip.plusIdx ⟨docs ++ [plusTab], cur, false, false, false⟩ =
      (docs.length : Int) := plusIdx_append hd rfl
  simp only [insertCanvasTab, ensurePlusTab_id docs hd, hp]
  rw [if_pos (show (docs.length : Int) ≠ -1 by omega)]
  simp only [insertTabQt_spec, hset, hconf, List.nil_append]

lemma allCanvas_eraseIdx {docs : List Tab} (hd : AllCanvas docs) (n : Nat) :
    AllCanvas (docs.eraseIdx n) :=
  fun t ht => hd t (List.eraseIdx_subset _ _ ht)

/-- The helper `realTabCount` counts exactly the documents. -/
lemma realTabCount_append (docs : List Tab) (hd : AllCanvas docs) (cur : Int)
    (adj bs bb : Bool) :
    Strip.realTabCount ⟨docs ++ [plusTab], cur, adj, bs, bb⟩ = docs.length := by
  simp only [Strip.realTabCount, List.countP_append]
  have h1 : docs.countP
      (fun t => match t.page with | Page.canvas _ => true | Page.plus => false) =
      docs.length :=
    List.countP_eq_length.mpr (fun t ht => by
      obtain ⟨id, hp⟩ := hd t ht
      simp [hp])
  have h2 : [plusTab].countP
      (fun t => match t.page with | Page.canvas _ => true | Page.plus => false) = 0 := by
    simp [plusTab]
  omega

/-- Calling `setCurrentIndex` on a valid index settles the current index there and
emits exactly when it changes. -/
lemma setCurrentIndex_spec (tabs : List Tab) (cur i : Int) (h0 : 0 ≤ i)
    (hlt : i < (tabs.length : Int)) :
    setCurrentIndex ⟨tabs, cur, false, false, false⟩ i =
      (⟨tabs, i, false, false, false⟩,
        if i = cur then [] else [Event.currentChanged i]) := by
  simp only [setCurrentIndex, Strip.count, Strip.emitting]
  by_cases h : i = cur
  · subst h
    rw [if_neg (by simp)]
    simp
  · rw [if_pos ⟨h0, hlt, h⟩]
    simp [h]

/-- Reading the strip at a document position yields that document's page. -/
lemma widgetAt_doc (docs : List Tab) (l₂ : List Tab) (cur : Int)
    (adj bs bb : Bool) (p : Int) (h0 : 0 ≤ p) (hlt : p.toNat < docs.length) :
    Strip.widgetAt ⟨docs ++ l₂, cur, adj, bs, bb⟩ p =
      some (docs.get ⟨p.toNat, hlt⟩).page := by
  simp only [Strip.widgetAt, if_pos h0]
  rw [List.getElem?_append_left (by omega), List.getElem?_eq_getElem hlt]
  rfl

/-- Reading the strip at the sentinel position yields the `+` page. -/
lemma widgetAt_plus (docs : List Tab) (l₂ : List Tab) (cur : Int)
    (adj bs bb : Bool) (p : Int) (hp : p = (docs.length : Int)) :
    Strip.widgetAt ⟨docs ++ plusTab :: l₂, cur, adj, bs, bb⟩ p = some Page.plus := by
  subst hp
  simp only [Strip.widgetAt, if_pos (by omega : (0:Int) ≤ (docs.length : Int))]
  rw [Int.toNat_natCast, getElem?_append_cons_length]
  rfl

/-- Reading the strip out of range yields null. -/
lemma widgetAt_none (tabs : List Tab) (cur : Int) (adj bs bb : Bool) (p : Int)
    (h : p < 0 ∨ (tabs.length : Int) ≤ p) :
    Strip.widgetAt ⟨tabs, cur, adj, bs, bb⟩ p = none := by
  rcases h with h | h
  · have h' : ¬ (0 : Int) ≤ p := by omega
    simp [Strip.widgetAt, h']
  · simp only [Strip.widgetAt]
    rw [if_pos (by omega), List.getElem?_eq_none (by omega)]
    rfl

/-- Calling `_onClose` on the sentinel position or out of range is a no-op with no
notifications. -/
lemma onClose_noop (docs : List Tab) (cur p : Int)
    (h : p < 0 ∨ p = (docs.length : Int) ∨ (docs.length : Int) + 1 ≤ p) :
    onClose ⟨docs ++ [plusTab], cur, false, false, false⟩ p =
      (⟨docs ++ [plusTab], cur, false, false, false⟩, []) := by
  rcases h with h | h | h
  · rw [onClose, widgetAt_none _ _ _ _ _ _ (Or.inl h)]
  · rw [onClose, widgetAt_plus docs [] _ _ _ _ _ h]
  · rw [onClose, widgetAt_none _ _ _ _ _ _ (Or.inr (by simp; omega))]

/-- Removal with both signal blockers taken: the tab disappears, the
current index shifts (select-right for the removed current tab), and no
notification escapes. -/
lemma removeTabQt_blocked (docs : List Tab) (cur p : Int) (h0 : 0 ≤ p)
    (hlt : p.toNat < docs.length) :
    removeTabQt ⟨docs ++ [plusTab], cur, false, true, true⟩ p =
      (⟨docs.eraseIdx p.toNat ++ [plusTab],
          if p < cur then cur - 1 else cur, false, true, true⟩, []) := by
  simp only [removeTabQt, Strip.count]
  rw [if_pos ⟨h0, by simp; omega⟩]
  rw [eraseIdx_append_lt _ _ _ hlt]
  simp only [Strip.emitting]
  have hcur : (if p < cur then cur - 1
      else if p = cur then
        min p (((docs.eraseIdx p.toNat ++ [plusTab]).length : Int) - 1)
      else cur) = if p < cur then cur - 1 else cur := by
    have hl2 : ((docs.eraseIdx p.toNat ++ [plusTab]).length : Int) =
        (docs.length : Int) := by
      simp only [List.length_append, List.length_cons, List.length_nil,
        List.length_eraseIdx_of_lt hlt]
      omega
    rw [hl2]
    split_ifs with h1 h2
    · rfl
    · have : min p ((docs.length : Int) - 1) = p := min_eq_left (by omega)
      omega
    · rfl
  rw [hcur]
  simp

/-- Closing the only document: only the sentinel remains, nothing is
emitted. -/
lemma onClose_doc_small (docs : List Tab) (hd : AllCanvas docs) (cur p : Int)
    (h0 : 0 ≤ p) (hlt : p.toNat < docs.length) (h1 : docs.length = 1) :
    onClose ⟨docs ++ [plusTab], cur, false, false, false⟩ p =
      (⟨[plusTab], if p < cur then cur - 1 else cur, false, false, false⟩, []) := by
  obtain ⟨id, hid⟩ := hd (docs.get ⟨p.toNat, hlt⟩) (docs.get_mem p.toNat hlt)
  have hw : Strip.widgetAt ⟨docs ++ [plusTab], cur, false, false, false⟩ p =
      some (Page.canvas id) := by
    rw [widgetAt_doc docs [plusTab] cur false false false p h0 hlt, hid]
  have he : docs.eraseIdx p.toNat = [] := by
    have h' := List.length_eraseIdx_of_lt hlt
    exact List.length_eq_zero.mp (by omega)
  have hrem := removeTabQt_blocked docs cur p h0 hlt
  rw [he] at hrem
  simp only [List.nil_append] at hrem
  have hens : ensurePlusTab ⟨[plusTab], if p < cur then cur - 1 else cur,
      false, false, false⟩ =
      ⟨[plusTab], if p < cur then cur - 1 else cur, false, false, false⟩ := by
    simpa using ensurePlusTab_id [] (fun t ht => by simp at ht)
      (if p < cur then cur - 1 else cur) false false false
  have hrc : Strip.realTabCount ⟨[plusTab], if p < cur then cur - 1 else cur,
      false, false, false⟩ = 0 := by
    simpa using realTabCount_append [] (fun t ht => by simp at ht)
      (if p < cur then cur - 1 else cur) false false false
  simp [onClose, hw, hrem, hens, hrc]

/-- Closing a document while at least one other document remains: the
document disappears, the sentinel stays last, and the selection settles on
position `p` (or `p - 1` when slot `p` is now the sentinel), with at most
the single final `currentChanged`. -/
lemma onClose_doc_big (docs : List Tab) (hd : AllCanvas docs) (cur p : Int)
    (h0 : 0 ≤ p) (hlt : p.toNat < docs.length) (h2 : 2 ≤ docs.length) :
    onClose ⟨docs ++ [plusTab], cur, false, false, false⟩ p =
      (⟨docs.eraseIdx p.toNat ++ [plusTab],
          if p = (docs.length : Int) - 1 then p - 1 else p, false, false, false⟩,
        if (if p = (docs.length : Int) - 1 then p - 1 else p) =
            (if p < cur then cur - 1 else cur) then []
        else [Event.currentChanged
          (if p = (docs.length : Int) - 1 then p - 1 else p)]) := by
  obtain ⟨id, hid⟩ := hd (docs.get ⟨p.toNat, hlt⟩) (docs.get_mem p.toNat hlt)
  have hw : Strip.widgetAt ⟨docs ++ [plusTab], cur, false, false, false⟩ p =
      some (Page.canvas id) := by
    rw [widgetAt_doc docs [plusTab] cur false false false p h0 hlt, hid]
  have hde : AllCanvas (docs.eraseIdx p.toNat) := allCanvas_eraseIdx hd _
  have hlen : (docs.eraseIdx p.toNat).length = docs.length - 1 :=
    List.length_eraseIdx_of_lt hlt
  have hrem := removeTabQt_blocked docs cur p h0 hlt
  have hens := ensurePlusTab_id (docs.eraseIdx p.toNat) hde
    (if p < cur then cur - 1 else cur) false false false
  have hrc := realTabCount_append (docs.eraseIdx p.toNat) hde
    (if p < cur then cur - 1 else cur) false false false
  have hpos : 0 < (docs.eraseIdx p.toNat).length := by omega
  have hcount : Strip.count ⟨docs.eraseIdx p.toNat ++ [plusTab],
      if p < cur then cur - 1 else cur, false, false, false⟩ =
      (docs.length : Int) := by
    simp only [Strip.count, List.length_append, List.length_cons,
      List.length_nil, hlen]
    omega
  have hmin : min p ((docs.length : Int) - 1) = p := min_eq_left (by omega)
  by_cases hpe : p = (docs.length : Int) - 1
  · have hwp : Strip.widgetAt ⟨docs.eraseIdx p.toNat ++ [plusTab],
        if p < cur then cur - 1 else cur, false, false, false⟩ p =
        some Page.plus := by
      have hp' : p = ((docs.eraseIdx p.toNat).length : Int) := by omega
      exact widgetAt_plus _ [] _ _ _ _ _ hp'
    have hp1 : (1 : Int) ≤ p := by omega
    have hset := setCurrentIndex_spec (docs.eraseIdx p.toNat ++ [plusTab])
      (if p < cur then cur - 1 else cur) (p - 1) (by omega)
      (by simp only [List.length_append, List.length_cons, List.length_nil,
        hlen]; omega)
    have hif : (if p = (docs.length : Int) - 1 then p - 1 else p) = p - 1 :=
      if_pos hpe
    simp [onClose, hw, hrem, hens, hrc, hpos, hcount, hmin, hwp, hp1, hset, hif]
  · have hlt2 : p.toNat < (docs.eraseIdx p.toNat).length := by omega
    obtain ⟨id2, hid2⟩ := hde ((docs.eraseIdx p.toNat).get ⟨p.toNat, hlt2⟩)
      ((docs.eraseIdx p.toNat).get_mem p.toNat hlt2)
    have hwd : Strip.widgetAt ⟨docs.eraseIdx p.toNat ++ [plusTab],
        if p < cur then cur - 1 else cur, false, false, false⟩ p =
        some (Page.canvas id2) := by
      rw [widgetAt_doc _ [plusTab] _ false false false p h0 hlt2, hid2]
    have hset := setCurrentIndex_spec (docs.eraseIdx p.toNat ++ [plusTab])
      (if p < cur then cur - 1 else cur) p h0
      (by simp only [List.length_append, List.length_cons, List.length_nil,
        hlen]; omega)
    have hif : (if p = (docs.length : Int) - 1 then p - 1 else p) = p :=
      if_neg hpe
    simp [onClose, hw, hrem, hens, hrc, hpos, hcount, hmin, hwd, hset, hif]

/-- The handler `_onTabMoved` does nothing when the sentinel is already last. -/
lemma onTabMoved_plus_last (docs : List Tab) (hd : AllCanvas docs) (cur : Int)
    (bs bb : Bool) (fuel : Nat) :
    onTabMoved (fuel + 1) ⟨docs ++ [plusTab], cur, false, bs, bb⟩ =
      ⟨docs ++ [plusTab], cur, false, bs, bb⟩ := by
  have hp : Strip.plusIdx ⟨docs ++ [plusTab], cur, false, bs, bb⟩ =
      (docs.length : Int) := plusIdx_append hd rfl
  have hlast : ¬ ((docs.length : Int) ≠
      Strip.count ⟨docs ++ [plusTab], cur, false, bs, bb⟩ - 1) := by
    simp only [Strip.count, List.length_append, List.length_cons, List.length_nil]
    omega
  simp only [onTabMoved, hp]
  rw [if_neg (by simp), if_neg (show ¬ ((docs.length : Int) = -1) by omega),
    if_neg hlast]

/-- The handler `_onTabMoved` with the sentinel out of place: the corrective move pins
it back to the last slot; the nested `tabMoved` dispatch is cut off by the
reentrancy guard, and the guard is clear again afterwards. -/
lemma onTabMoved_fix (l₁ l₂ : List Tab) (h₁ : AllCanvas l₁)
    (hne : l₂ ≠ []) (cur : Int) (bs : Bool) :
    onTabMoved 2 ⟨l₁ ++ plusTab :: l₂, cur, false, bs, false⟩ =
      ⟨(l₁ ++ l₂) ++ [plusTab],
        moveAdjust cur (l₁.length : Int) ((l₁.length + l₂.length : Nat) : Int),
        false, bs, false⟩ := by
  have hl2 : 0 < l₂.length := List.length_pos.mpr hne
  have hp : Strip.plusIdx ⟨l₁ ++ plusTab :: l₂, cur, false, bs, false⟩ =
      (l₁.length : Int) := plusIdx_append h₁ rfl
  have hcount : Strip.count ⟨l₁ ++ plusTab :: l₂, cur, false, bs, false⟩ =
      ((l₁.length + l₂.length + 1 : Nat) : Int) := by
    simp only [Strip.count, List.length_append, List.length_cons]
    omega
  have hlast : Strip.count ⟨l₁ ++ plusTab :: l₂, cur, false, bs, false⟩ - 1 =
      ((l₁.length + l₂.length : Nat) : Int) := by
    rw [hcount]; push_cast; omega
  have hmove : moveTabPure ⟨l₁ ++ plusTab :: l₂, cur, true, bs, false⟩
      (l₁.length : Int) ((l₁.length + l₂.length : Nat) : Int) =
      ⟨(l₁ ++ l₂) ++ [plusTab],
        moveAdjust cur (l₁.length : Int) ((l₁.length + l₂.length : Nat) : Int),
        true, bs, false⟩ := by
    have hc : Strip.count ⟨l₁ ++ plusTab :: l₂, cur, true, bs, false⟩ =
        ((l₁.length + l₂.length + 1 : Nat) : Int) := by
      simp only [Strip.count, List.length_append, List.length_cons]
      omega
    simp only [moveTabPure, hc]
    rw [if_pos (by refine ⟨by omega, by push_cast; omega, by omega,
      by push_cast; omega, by omega⟩)]
    have hmv : listMove (l₁ ++ plusTab :: l₂) (l₁.length : Int).toNat
        ((l₁.length + l₂.length : Nat) : Int).toNat = (l₁ ++ l₂) ++ [plusTab] := by
      simp only [Int.toNat_natCast, listMove, getElem?_append_cons_length,
        eraseIdx_append_cons_length]
      have : l₁.length + l₂.length = (l₁ ++ l₂).length := by simp
      rw [this, List.insertIdx_length_self]
    rw [hmv]
  simp only [onTabMoved, hp]
  rw [if_neg (by simp), if_neg (show ¬ ((l₁.length : Int) = -1) by omega),
    if_pos (by rw [hlast]; push_cast; omega), hlast, hmove]
  simp [onTabMoved]

/-- A completed drag preserves the tab-strip invariant: afterwards the
sentinel is last, all other entries are documents, and the document
multiset size is unchanged. -/
lemma userDragMove_inv (docs : List Tab) (hd : AllCanvas docs) (cur f t : Int) :
    ∃ docs2 cur2, AllCanvas docs2 ∧ docs2.length = docs.length ∧
      userDragMove ⟨docs ++ [plusTab], cur, false, false, false⟩ f t =
        ⟨docs2 ++ [plusTab], cur2, false, false, false⟩ := by
  set s : Strip := ⟨docs ++ [plusTab], cur, false, false, false⟩ with hs
  have hcount : s.count = ((docs.length + 1 : Nat) : Int) := by
    simp [hs, Strip.count]
  by_cases hv : 0 ≤ f ∧ f < s.count ∧ 0 ≤ t ∧ t < s.count ∧ f ≠ t
  · obtain ⟨hf0, hfc, ht0, htc, hft⟩ := hv
    rw [hcount] at hfc htc
    have hvalid : 0 ≤ f ∧ f < s.count ∧ 0 ≤ t ∧ t < s.count ∧ f ≠ t := by
      rw [hcount]
      exact ⟨hf0, hfc, ht0, htc, hft⟩
    simp only [userDragMove, if_pos hvalid]
    by_cases hfp : f = (docs.length : Int)
    -- the sentinel itself was dragged: the corrective move cancels the drag
    · have htn : t.toNat < docs.length := by omega
      have hmv : listMove (docs ++ [plusTab]) f.toNat t.toNat =
          docs.take t.toNat ++ plusTab :: docs.drop t.toNat := by
        have hft' : f.toNat = docs.length := by omega
        simp only [listMove, hft']
        rw [show docs ++ [plusTab] = docs ++ plusTab :: [] from rfl,
          getElem?_append_cons_length, eraseIdx_append_cons_length,
          List.append_nil]
        exact insertIdx_take_drop _ _ _ (by omega)
      have hmove : moveTabPure s f t =
          ⟨docs.take t.toNat ++ plusTab :: docs.drop t.toNat,
            moveAdjust cur f t, false, false, false⟩ := by
        simp only [moveTabPure, if_pos hvalid, hmv]
      rw [hmove]
      have hfix := onTabMoved_fix (docs.take t.toNat) (docs.drop t.toNat)
        (fun a ha => hd a (List.mem_of_mem_take ha))
        (by rw [Ne, List.drop_eq_nil_iff]; omega)
        (moveAdjust cur f t) false
      simp only [List.take_append_drop] at hfix
      rw [if_neg (by simp), hfix]
      exact ⟨docs, _, hd, rfl, rfl⟩
    -- a document was dragged
    · have hfn : f.toNat < docs.length := by omega
      have hxmem := docs.get_mem f.toNat hfn
      have hget : (docs ++ [plusTab])[f.toNat]? =
          some (docs.get ⟨f.toNat, hfn⟩) := by
        rw [List.getElem?_append_left (by omega), List.getElem?_eq_getElem hfn]
        rfl
      have herase : (docs ++ [plusTab]).eraseIdx f.toNat =
          docs.eraseIdx f.toNat ++ [plusTab] := eraseIdx_append_lt _ _ _ hfn
      have hde : AllCanvas (docs.eraseIdx f.toNat) := allCanvas_eraseIdx hd _
      have hlen : (docs.eraseIdx f.toNat).length = docs.length - 1 :=
        List.length_eraseIdx_of_lt hfn
      by_cases htp : t = (docs.length : Int)
      -- dragged to the last slot: the moved document lands after the
      -- sentinel, then the corrective move re-pins the sentinel
      · have hmv : listMove (docs ++ [plusTab]) f.toNat t.toNat =
            docs.eraseIdx f.toNat ++ plusTab ::
              [docs.get ⟨f.toNat, hfn⟩] := by
          simp only [listMove, hget, herase]
          have hlen2 : t.toNat = (docs.eraseIdx f.toNat ++ [plusTab]).length := by
            simp only [List.length_append, List.length_cons, List.length_nil, hlen]
            omega
          rw [hlen2, List.insertIdx_length_self]
          simp
        have hmove : moveTabPure s f t =
            ⟨docs.eraseIdx f.toNat ++ plusTab :: [docs.get ⟨f.toNat, hfn⟩],
              moveAdjust cur f t, false, false, false⟩ := by
          simp only [moveTabPure, if_pos hvalid, hmv]
        rw [hmove]
        have hfix := onTabMoved_fix (docs.eraseIdx f.toNat)
          [docs.get ⟨f.toNat, hfn⟩] hde (by simp)
          (moveAdjust cur f t) false
        rw [if_neg (by simp), hfix]
        refine ⟨docs.eraseIdx f.toNat ++ [docs.get ⟨f.toNat, hfn⟩], _, ?_, ?_, rfl⟩
        · intro a ha
          rcases List.mem_append.mp ha with h | h
          · exact hde a h
          · simp only [List.mem_singleton] at h
            exact h ▸ hd _ hxmem
        · simp only [List.length_append, List.length_cons, List.length_nil, hlen]
          omega
      -- dragged among the documents: the sentinel stays last
      · have htn : t.toNat ≤ (docs.eraseIdx f.toNat).length := by omega
        have hmv : listMove (docs ++ [plusTab]) f.toNat t.toNat =
            List.insertIdx t.toNat (docs.get ⟨f.toNat, hfn⟩)
              (docs.eraseIdx f.toNat) ++ [plusTab] := by
          simp only [listMove, hget, herase]
          exact insertIdx_append_le _ _ _ _ htn
        have hmove : moveTabPure s f t =
            ⟨List.insertIdx t.toNat (docs.get ⟨f.toNat, hfn⟩)
                (docs.eraseIdx f.toNat) ++ [plusTab],
              moveAdjust cur f t, false, false, false⟩ := by
          simp only [moveTabPure, if_pos hvalid, hmv]
        rw [hmove]
        have hall2 : AllCanvas (List.insertIdx t.toNat
            (docs.get ⟨f.toNat, hfn⟩) (docs.eraseIdx f.toNat)) := by
          intro a ha
          rcases (List.mem_insertIdx htn).mp ha with h | h
          · exact h ▸ hd _ hxmem
          · exact hde a h
        rw [if_neg (by simp),
          onTabMoved_plus_last _ hall2 (moveAdjust cur f t) false false 1]
        refine ⟨_, _, hall2, ?_, rfl⟩
        rw [List.length_insertIdx _ _ htn, hlen]
        omega
  · simp only [userDragMove, if_neg hv]
    exact ⟨docs, cur, hd, rfl, rfl⟩

/-- Every tab-strip operation preserves the sentinel-last invariant. -/
lemma applyOp_inv {s : Strip} (h : Inv s) (op : Op) : Inv (applyOp s op) := by
  obtain ⟨⟨docs, hdocs, htabs⟩, hadj, hbs, hbb⟩ := h
  obtain ⟨tabs, cur, adj, bs, bb⟩ := s
  simp only at htabs hadj hbs hbb
  subst htabs hadj hbs hbb
  cases op with
  | insert cid label =>
    have hspec := insertCanvasTab_spec docs hdocs cur cid label
    simp only [applyOp, hspec]
    exact ⟨⟨docs ++ [⟨Page.canvas cid, label⟩], by
      intro a ha
      rcases List.mem_append.mp ha with h | h
      · exact hdocs a h
      · simp only [List.mem_singleton] at h
        exact ⟨cid, by simp [h]⟩, by simp⟩, rfl, rfl, rfl⟩
  | close p =>
    by_cases hr : 0 ≤ p ∧ p < (docs.length : Int)
    · obtain ⟨h0, hlt'⟩ := hr
      have hlt : p.toNat < docs.length := by omega
      by_cases h1 : docs.length = 1
      · have hspec := onClose_doc_small docs hdocs cur p h0 hlt h1
        simp only [applyOp, hspec]
        exact ⟨⟨[], fun a ha => by simp at ha, by simp⟩, rfl, rfl, rfl⟩
      · have hspec := onClose_doc_big docs hdocs cur p h0 hlt (by omega)
        simp only [applyOp, hspec]
        exact ⟨⟨docs.eraseIdx p.toNat, allCanvas_eraseIdx hdocs _, rfl⟩,
          rfl, rfl, rfl⟩
    · have hspec := onClose_noop docs cur p (by omega)
      simp only [applyOp, hspec]
      exact ⟨⟨docs, hdocs, rfl⟩, rfl, rfl, rfl⟩
  | drag f t =>
    obtain ⟨docs2, cur2, hall2, _, heq⟩ := userDragMove_inv docs hdocs cur f t
    simp only [applyOp, heq]
    exact ⟨⟨docs2, hall2, rfl⟩, rfl, rfl, rfl⟩

lemma foldl_inv (ops : List Op) : ∀ {s : Strip}, Inv s →
    Inv (List.foldl applyOp s ops) := by
  induction ops with
  | nil => exact fun h => h
  | cons op ops ih => exact fun h => ih (applyOp_inv h op)

lemma initialStrip_inv : Inv initialStrip :=
  ⟨⟨[], fun a ha => by simp at ha, rfl⟩, rfl, rfl, rfl⟩

lemma setTabText_flags (s : Strip) (i : Int) (x : String) :
    (s.setTabText i x).blockedSelf = s.blockedSelf ∧
    (s.setTabText i x).blockedBar = s.blockedBar := by
  simp only [Strip.setTabText]
  split_ifs <;> exact ⟨rfl, rfl⟩

lemma moveTabPure_flags (s : Strip) (f t : Int) :
    (moveTabPure s f t).blockedSelf = s.blockedSelf ∧
    (moveTabPure s f t).blockedBar = s.blockedBar := by
  simp only [moveTabPure]
  split_ifs <;> exact ⟨rfl, rfl⟩

lemma onTabMoved_flags : ∀ (n : Nat) (s : Strip),
    (onTabMoved n s).blockedSelf = s.blockedSelf ∧
    (onTabMoved n s).blockedBar = s.blockedBar := by
  intro n
  induction n with
  | zero => exact fun s => ⟨rfl, rfl⟩
  | succ n ih =>
    intro s
    simp only [onTabMoved]
    set s1 := moveTabPure { s with adjusting := true } s.plusIdx (s.count - 1)
      with hs1
    have hm : s1.blockedSelf = s.blockedSelf ∧ s1.blockedBar = s.blockedBar := by
      have h' := moveTabPure_flags { s with adjusting := true }
        s.plusIdx (s.count - 1)
      simpa [hs1] using h'
    split_ifs with h1 h2 h3 h4
    · exact ⟨rfl, rfl⟩
    · exact ⟨rfl, rfl⟩
    · exact ⟨hm.1, hm.2⟩
    · exact ⟨(ih s1).1.trans hm.1, (ih s1).2.trans hm.2⟩
    · exact ⟨rfl, rfl⟩

lemma addTabQt_flags (s : Strip) (t : Tab) :
    (addTabQt s t).1.blockedSelf = s.blockedSelf ∧
    (addTabQt s t).1.blockedBar = s.blockedBar := by
  simp only [addTabQt]
  split_ifs <;> exact ⟨rfl, rfl⟩

lemma configurePlusTab_flags (s : Strip) :
    (configurePlusTab s).blockedSelf = s.blockedSelf ∧
    (configurePlusTab s).blockedBar = s.blockedBar := by
  simp only [configurePlusTab]
  set s0 := s.setTabText s.plusIdx "+" with hs0
  set s1 := moveTabPure { s0 with adjusting := true } s.plusIdx (s0.count - 1)
    with hs1
  have hst : s0.blockedSelf = s.blockedSelf ∧ s0.blockedBar = s.blockedBar :=
    setTabText_flags s s.plusIdx "+"
  have hm : s1.blockedSelf = s0.blockedSelf ∧ s1.blockedBar = s0.blockedBar := by
    have h' := moveTabPure_flags { s0 with adjusting := true }
      s.plusIdx (s0.count - 1)
    simpa [hs1] using h'
  have hr := onTabMoved_flags 2 s1
  split_ifs with h1 h2 h3
  · exact ⟨rfl, rfl⟩
  · exact ⟨hm.1.trans hst.1, hm.2.trans hst.2⟩
  · exact ⟨(hr.1.trans hm.1).trans hst.1, (hr.2.trans hm.2).trans hst.2⟩
  · exact hst

lemma ensurePlusTab_flags (s : Strip) :
    (ensurePlusTab s).blockedSelf = s.blockedSelf ∧
    (ensurePlusTab s).blockedBar = s.blockedBar := by
  simp only [ensurePlusTab]
  split_ifs with h
  · have h1 := configurePlusTab_flags (addTabQt s plusTab).1
    have h2 := addTabQt_flags s plusTab
    exact ⟨h1.1.trans h2.1, h1.2.trans h2.2⟩
  · exact configurePlusTab_flags s

lemma removeTabQt_flags (s : Strip) (i : Int) :
    (removeTabQt s i).1.blockedSelf = s.blockedSelf ∧
    (removeTabQt s i).1.blockedBar = s.blockedBar := by
  simp only [removeTabQt]
  split_ifs <;> exact ⟨rfl, rfl⟩

lemma removeTabQt_events_blocked (s : Strip) (i : Int)
    (hb : s.blockedSelf = true) : (removeTabQt s i).2 = [] := by
  simp only [removeTabQt]
  split
  · simp [Strip.emitting, hb]
  · rfl

lemma setCurrentIndex_flags_events (s : Strip) (i : Int) :
    (setCurrentIndex s i).1.blockedSelf = s.blockedSelf ∧
    (setCurrentIndex s i).1.blockedBar = s.blockedBar ∧
    ((setCurrentIndex s i).2 = [] ∨
      (setCurrentIndex s i).2 =
        [Event.currentChanged ((setCurrentIndex s i).1.current)]) := by
  simp only [setCurrentIndex]
  split_ifs with h hb
  · simp
  · simp
  · simp

/-! ### Claim theorems -/

/-- C1: for every sequence of tab-strip operations (`insertCanvasTab`,
close via the close handler, drag-reorder via the tab-moved handler,
including a drag that moves the sentinel itself) starting from the fresh
widget, after each operation completes the `+` sentinel page is present at
the last tab position and every entry before it is a document; moreover
any single completed drag — in particular a drag of the sentinel to any
position — carries an invariant state to an invariant state, so the
sentinel is back at the last position afterwards. -/
theorem C1_sentinel_always_last :
    (∀ ops : List Op, Inv (List.foldl applyOp initialStrip ops)) ∧
    (∀ (s : Strip) (f t : Int), Inv s → Inv (userDragMove s f t)) := by
  constructor
  · exact fun ops => foldl_inv ops initialStrip_inv
  · intro s f t h
    obtain ⟨⟨docs, hdocs, htabs⟩, hadj, hbs, hbb⟩ := h
    obtain ⟨tabs, cur, adj, bs, bb⟩ := s
    simp only at htabs hadj hbs hbb
    subst htabs hadj hbs hbb
    obtain ⟨docs2, cur2, hall2, _, heq⟩ := userDragMove_inv docs hdocs cur f t
    rw [heq]
    exact ⟨⟨docs2, hall2, rfl⟩, rfl, rfl, rfl⟩

/-- Witness for C1: a concrete sentinel drag from an invariant state lands
in an invariant state. -/
theorem C1_sentinel_always_last_witness :
    Inv (userDragMove ⟨[⟨Page.canvas 0, "Untitled 1"⟩, plusTab], 0,
      false, false, false⟩ 1 0) :=
  C1_sentinel_always_last.2 _ 1 0
    ⟨⟨[⟨Page.canvas 0, "Untitled 1"⟩],
      fun a ha => by
        simp only [List.mem_singleton] at ha
        exact ⟨0, by rw [ha]⟩, rfl⟩, rfl, rfl, rfl⟩

/-- C4: on an invariant state, `insertCanvasTab` places the new document
immediately before the sentinel (regardless of the current document
order), selects it, leaves the sentinel at the last position, and returns
the position at which the new tab was placed. -/
theorem C4_insert_before_sentinel (s : Strip) (docs : List Tab)
    (hdocs : AllCanvas docs) (htabs : s.tabs = docs ++ [plusTab])
    (hadj : s.adjusting = false) (hbs : s.blockedSelf = false)
    (hbb : s.blockedBar = false) (cid : Nat) (label : String) :
    (insertCanvasTab s cid label).2.1 = (docs.length : Int) ∧
    (insertCanvasTab s cid label).1.tabs =
      docs ++ [⟨Page.canvas cid, label⟩, plusTab] ∧
    (insertCanvasTab s cid label).1.current = (docs.length : Int) ∧
    (insertCanvasTab s cid label).1.tabs.getLast? = some plusTab := by
  obtain ⟨tabs, cur, adj, bs, bb⟩ := s
  simp only at htabs hadj hbs hbb
  subst htabs hadj hbs hbb
  rw [insertCanvasTab_spec docs hdocs cur cid label]
  refine ⟨rfl, rfl, rfl, ?_⟩
  rw [show docs ++ ⟨Page.canvas cid, label⟩ :: [plusTab] =
    (docs ++ [⟨Page.canvas cid, label⟩]) ++ [plusTab] by simp]
  exact List.getLast?_concat _

/-- Witness for C4 at a concrete invariant state. -/
theorem C4_insert_before_sentinel_witness :
    (insertCanvasTab ⟨[⟨Page.canvas 0, "A"⟩, plusTab], 0, false, false, false⟩
        7 "B").2.1 = (1 : Int) ∧
    (insertCanvasTab ⟨[⟨Page.canvas 0, "A"⟩, plusTab], 0, false, false, false⟩
        7 "B").1.tabs =
      [⟨Page.canvas 0, "A"⟩] ++ [⟨Page.canvas 7, "B"⟩, plusTab] ∧
    (insertCanvasTab ⟨[⟨Page.canvas 0, "A"⟩, plusTab], 0, false, false, false⟩
        7 "B").1.current = (1 : Int) ∧
    (insertCanvasTab ⟨[⟨Page.canvas 0, "A"⟩, plusTab], 0, false, false, false⟩
        7 "B").1.tabs.getLast? = some plusTab :=
  C4_insert_before_sentinel _ [⟨Page.canvas 0, "A"⟩]
    (fun a ha => by
      simp only [List.mem_singleton] at ha
      exact ⟨0, by rw [ha]⟩) rfl rfl rfl rfl 7 "B"

/-- C2: on an invariant state, `close(p)` is a no-op (state and
notifications untouched) when `p` addresses the sentinel or is out of
range; otherwise it removes the document at `p`; if zero documents remain
only the sentinel entry is left; and with at least one document remaining
the new current selection is position `p` when that slot still holds a
document and `p - 1` when that slot is now the sentinel. -/
theorem C2_close_semantics (s : Strip) (docs : List Tab)
    (hdocs : AllCanvas docs) (htabs : s.tabs = docs ++ [plusTab])
    (hadj : s.adjusting = false) (hbs : s.blockedSelf = false)
    (hbb : s.blockedBar = false) (p : Int) :
    ((p = s.plusIdx ∨ p < 0 ∨ s.count ≤ p) → onClose s p = (s, [])) ∧
    (0 ≤ p → p < (docs.length : Int) →
      (onClose s p).1.tabs = docs.eraseIdx p.toNat ++ [plusTab] ∧
      (docs.length = 1 → (onClose s p).1.tabs = [plusTab]) ∧
      (2 ≤ docs.length →
        ((onClose s p).1.widgetAt p = some Page.plus →
          (onClose s p).1.current = p - 1) ∧
        ((onClose s p).1.widgetAt p ≠ some Page.plus →
          (onClose s p).1.current = p))) := by
  obtain ⟨tabs, cur, adj, bs, bb⟩ := s
  simp only at htabs hadj hbs hbb
  subst htabs hadj hbs hbb
  have hp : Strip.plusIdx ⟨docs ++ [plusTab], cur, false, false, false⟩ =
      (docs.length : Int) := plusIdx_append hdocs rfl
  have hc : Strip.count ⟨docs ++ [plusTab], cur, false, false, false⟩ =
      ((docs.length + 1 : Nat) : Int) := by
    simp [Strip.count]
  constructor
  · intro h
    rw [hp, hc] at h
    exact onClose_noop docs cur p (by omega)
  · intro h0 hlt'
    have hlt : p.toNat < docs.length := by omega
    by_cases h1 : docs.length = 1
    · have hspec := onClose_doc_small docs hdocs cur p h0 hlt h1
      have he : docs.eraseIdx p.toNat = [] := by
        have h' := List.length_eraseIdx_of_lt hlt
        exact List.length_eq_zero.mp (by omega)
      rw [hspec, he]
      exact ⟨by simp, fun _ => rfl, fun h2 => by omega⟩
    · have hspec := onClose_doc_big docs hdocs cur p h0 hlt (by omega)
      have hlen : (docs.eraseIdx p.toNat).length = docs.length - 1 :=
        List.length_eraseIdx_of_lt hlt
      rw [hspec]
      refine ⟨rfl, fun h => by omega, fun h2 => ?_⟩
      by_cases hpe : p = (docs.length : Int) - 1
      · have hwp : Strip.widgetAt ⟨docs.eraseIdx p.toNat ++ [plusTab],
            if p = (docs.length : Int) - 1 then p - 1 else p,
            false, false, false⟩ p = some Page.plus := by
          have hp' : p = ((docs.eraseIdx p.toNat).length : Int) := by omega
          exact widgetAt_plus _ [] _ _ _ _ _ hp'
        refine ⟨fun _ => by simp [hpe], fun hne => absurd hwp hne⟩
      · have hlt2 : p.toNat < (docs.eraseIdx p.toNat).length := by omega
        obtain ⟨id2, hid2⟩ := allCanvas_eraseIdx hdocs p.toNat
          ((docs.eraseIdx p.toNat).get ⟨p.toNat, hlt2⟩)
          ((docs.eraseIdx p.toNat).get_mem p.toNat hlt2)
        have hwd : Strip.widgetAt ⟨docs.eraseIdx p.toNat ++ [plusTab],
            if p = (docs.length : Int) - 1 then p - 1 else p,
            false, false, false⟩ p = some (Page.canvas id2) := by
          rw [widgetAt_doc _ [plusTab] _ false false false p h0 hlt2, hid2]
        refine ⟨fun habs => ?_, fun _ => by simp [hpe]⟩
        rw [hwd] at habs
        simp at habs

/-- C3: for every strip state and close request, the two signal blockers
taken for the removal are restored to their entry values on every exit
path (early returns included), and the whole close operation emits either
no `currentChanged` notification at all or exactly one — the final one,
carrying the settled selection; no transient notification from the
removal mechanics escapes. -/
theorem C3_close_single_notification (s : Strip) (p : Int) :
    ((onClose s p).1.blockedSelf = s.blockedSelf ∧
      (onClose s p).1.blockedBar = s.blockedBar) ∧
    ((onClose s p).2 = [] ∨
      (onClose s p).2 =
        [Event.currentChanged ((onClose s p).1.current)]) := by
  rcases hw : s.widgetAt p with _ | pg
  · simp [onClose, hw]
  · cases pg with
    | plus => simp [onClose, hw]
    | canvas id =>
      simp only [onClose, hw]
      set sB : Strip := { s with blockedSelf := true, blockedBar := true }
        with hsB
      set sU : Strip := { (removeTabQt sB p).1 with
        blockedSelf := s.blockedSelf, blockedBar := s.blockedBar } with hsU
      set sE := ensurePlusTab sU with hsE
      have hRe : (removeTabQt sB p).2 = [] :=
        removeTabQt_events_blocked sB p rfl
      have hEf := ensurePlusTab_flags sU
      have hUs : sU.blockedSelf = s.blockedSelf := rfl
      have hUb : sU.blockedBar = s.blockedBar := rfl
      split
      · have hsc := setCurrentIndex_flags_events sE
          (if sE.widgetAt (min p (sE.count - 1)) = some Page.plus ∧
              0 ≤ min p (sE.count - 1) - 1
            then min p (sE.count - 1) - 1 else min p (sE.count - 1))
        refine ⟨⟨hsc.1.trans ((hsE ▸ hEf.1).trans hUs),
          hsc.2.1.trans ((hsE ▸ hEf.2).trans hUb)⟩, ?_⟩
        rw [hRe, List.nil_append]
        exact hsc.2.2
      · refine ⟨⟨(hsE ▸ hEf.1).trans hUs, (hsE ▸ hEf.2).trans hUb⟩, ?_⟩
        rw [hRe]
        exact Or.inl rfl

/-- Witness for C2: on a two-document strip, a close request at the
sentinel position (index 2) is a no-op with no notifications. -/
theorem C2_close_semantics_witness :
    onClose ⟨[⟨Page.canvas 0, "A"⟩, ⟨Page.canvas 1, "B"⟩, plusTab], 0,
        false, false, false⟩ 2 =
      (⟨[⟨Page.canvas 0, "A"⟩, ⟨Page.canvas 1, "B"⟩, plusTab], 0,
        false, false, false⟩, []) :=
  (C2_close_semantics _ [⟨Page.canvas 0, "A"⟩, ⟨Page.canvas 1, "B"⟩]
    (fun a ha => by
      rcases List.mem_cons.mp ha with h | h
      · exact ⟨0, by rw [h]⟩
      · simp only [List.mem_singleton] at h
        exact ⟨1, by rw [h]⟩) rfl rfl rfl rfl 2).1 (Or.inl (by decide))

lemma listFind_eq_none {α : Type} (p : α → Bool) (l : List α)
    (h : ∀ a ∈ l, p a = false) : listFind p l = none := by
  induction l with
  | nil => rfl
  | cons a l ih =>
    simp only [listFind, h a (by simp), ih (fun b hb => h b (by simp [hb]))]
    rfl

/-- C7: `setAspectRatio` silently rejects non-positive components (the
stored ratio is unchanged, no error path exists in the model) and stores
`(w, h)` for positive components. -/
theorem C7_setAspectRatio_validation (cur : Int × Int) (w h : Int) :
    ((w ≤ 0 ∨ h ≤ 0) → setAspectRatio cur w h = cur) ∧
    (0 < w → 0 < h → setAspectRatio cur w h = (w, h)) := by
  constructor
  · intro hcond
    simp [setAspectRatio, hcond]
  · intro hw hh
    rw [setAspectRatio, if_neg (by omega)]

/-- Witness for C7: a negative width is rejected; positive components are
stored. -/
theorem C7_setAspectRatio_validation_witness :
    setAspectRatio (1, 1) (-3) 2 = (1, 1) ∧
    setAspectRatio (1, 1) 16 9 = (16, 9) :=
  ⟨(C7_setAspectRatio_validation (1, 1) (-3) 2).1 (Or.inl (by decide)),
    (C7_setAspectRatio_validation (1, 1) 16 9).2 (by decide) (by decide)⟩

/-- C6: `cycleAspectRatio` advances through the fixed preset list in
order, wraps from the last preset to the first, resets any unrecognised
ratio to the first preset `(1,1)`, and six applications from `(1,1)`
return to `(1,1)`. -/
theorem C6_cycleAspectRatio_order (asp : Int × Int) :
    cycleAspectRatio (1, 1) = (3, 2) ∧
    cycleAspectRatio (3, 2) = (4, 3) ∧
    cycleAspectRatio (4, 3) = (5, 4) ∧
    cycleAspectRatio (5, 4) = (16, 9) ∧
    cycleAspectRatio (16, 9) = (9, 16) ∧
    cycleAspectRatio (9, 16) = (1, 1) ∧
    (asp ∉ DEFAULT_ASPECTS → cycleAspectRatio asp = (1, 1)) ∧
    cycleAspectRatio^[6] (1, 1) = (1, 1) := by
  refine ⟨by decide, by decide, by decide, by decide, by decide, by decide,
    ?_, by decide⟩
  intro h
  have hf : listFind (fun x => x == asp) DEFAULT_ASPECTS = none := by
    refine listFind_eq_none _ _ (fun a ha => ?_)
    have : a ≠ asp := fun he => h (he ▸ ha)
    simp [this]
  simp [cycleAspectRatio, hf]
  rfl

/-- Witness for C6: a non-preset ratio is reset to the first preset. -/
theorem C6_cycleAspectRatio_order_witness :
    (7, 7) ∉ DEFAULT_ASPECTS ∧ cycleAspectRatio (7, 7) = (1, 1) :=
  ⟨by decide, (C6_cycleAspectRatio_order (7, 7)).2.2.2.2.2.2.1 (by decide)⟩

/-- C8: accepting the dialog returns the whitespace-trimmed name (falling
back to `"Untitled"` when the trimmed field is empty) with the selected
ratio, whose default selection is `(1,1)`; cancelling returns no result
and `createCanvasViaDialog` creates no document and leaves the
application state untouched. -/
theorem C8_dialog_outcome (nameField : String) (ratio : Int × Int) (a : App) :
    (pyStrip nameField ≠ "" →
      promptNewCanvas (DialogResult.accepted nameField ratio) =
        some (pyStrip nameField, ratio)) ∧
    (pyStrip nameField = "" →
      promptNewCanvas (DialogResult.accepted nameField ratio) =
        some ("Untitled", ratio)) ∧
    dialogSelectedRatio [] = (1, 1) ∧
    promptNewCanvas DialogResult.cancelled = none ∧
    a.createCanvasViaDialog DialogResult.cancelled = a := by
  refine ⟨?_, ?_, rfl, rfl, rfl⟩
  · intro h
    simp [promptNewCanvas, selectedName, h]
  · intro h
    simp [promptNewCanvas, selectedName, h]

/-- Witness for C8: a name with surrounding blanks is trimmed; a blank
name falls back to the default. -/
theorem C8_dialog_outcome_witness :
    promptNewCanvas (DialogResult.accepted " hi " (16, 9)) =
      some ("hi", (16, 9)) ∧
    promptNewCanvas (DialogResult.accepted "  " (16, 9)) =
      some ("Untitled", (16, 9)) := by
  constructor
  · have h := (C8_dialog_outcome " hi " (16, 9) initialApp).1 (by decide)
    simpa using h
  · exact (C8_dialog_outcome "  " (16, 9) initialApp).2.1 (by decide)

lemma applyOp_theme (a : App) (op : AppOp) :
    (App.applyOp a op).theme = a.theme := by
  cases op with
  | setCurrentAspect w h =>
    simp only [App.applyOp]
    cases a.currentCanvas <;> rfl
  | cycleCurrentAspect =>
    simp only [App.applyOp]
    cases a.currentCanvas <;> rfl
  | newCanvasDialog r =>
    simp only [App.applyOp, App.createCanvasViaDialog]
    rcases promptNewCanvas r with _ | ⟨name, aspect⟩
    · rfl
    · rfl
  | addTab label aspect => rfl
  | closeTab i => rfl
  | dragTab f t => rfl
  | renameCurrent name => rfl
  | pressTab i => rfl

/-- C9: the theme palette is initialised once at startup and no operation
of the program mutates any of its color fields: after any sequence of
program operations the palette is still the startup palette. -/
theorem C9_theme_immutable (ops : List AppOp) :
    (List.foldl App.applyOp initialApp ops).theme = color_theme := by
  suffices h : ∀ a : App, (List.foldl App.applyOp a ops).theme = a.theme by
    exact (h initialApp).trans rfl
  induction ops with
  | nil => exact fun a => rfl
  | cons op ops ih =>
    intro a
    rw [List.foldl_cons, ih (App.applyOp a op), applyOp_theme]

/-- Python's `int()` truncation agrees with the floor on the nonnegative
values produced by the geometry. -/
lemma pyInt_eq_floor {q : ℚ} (h : 0 ≤ q) : pyInt q = ⌊q⌋ := by
  rw [pyInt, Rat.floor_def]
  exact Int.tdiv_eq_ediv (Rat.num_nonneg.mpr h) (by positivity)

/-- On positive inputs the guard of `_compute_canvas_rect` is not taken
and the rectangle is the scaled, centered one. -/
lemma compute_canvas_rect_pos (avail : Rect) (rw rh : Int) (hrw : 0 < rw)
    (hrh : 0 < rh) (haw : 0 < avail.w) (hah : 0 < avail.h) :
    compute_canvas_rect avail (rw, rh) =
      ⟨avail.x + pyFloorDiv (avail.w - pyInt ((rw : ℚ) *
          min ((avail.w : ℚ) / (rw : ℚ)) ((avail.h : ℚ) / (rh : ℚ)))) 2,
        avail.y + pyFloorDiv (avail.h - pyInt ((rh : ℚ) *
          min ((avail.w : ℚ) / (rw : ℚ)) ((avail.h : ℚ) / (rh : ℚ)))) 2,
        pyInt ((rw : ℚ) *
          min ((avail.w : ℚ) / (rw : ℚ)) ((avail.h : ℚ) / (rh : ℚ))),
        pyInt ((rh : ℚ) *
          min ((avail.w : ℚ) / (rw : ℚ)) ((avail.h : ℚ) / (rh : ℚ)))⟩ := by
  simp only [compute_canvas_rect]
  rw [if_neg (by push_neg; exact ⟨by omega, by omega, by omega, by omega⟩)]

/-- C5: for a stored positive ratio and a positive available rectangle,
the computed canvas rectangle has width `⌊rw * s⌋` and height `⌊rh * s⌋`
for `s = min (aw / rw) (ah / rh)`, its sides reproduce the stored ratio
within integer-rounding tolerance
(`|width * rh - height * rw| < max rw rh`), and it is centered: both
offsets are nonnegative and the two margins on each axis differ by at
most one unit. -/
theorem C5_centered_aspect_rect (avail : Rect) (rw rh : Int) (hrw : 0 < rw)
    (hrh : 0 < rh) (haw : 0 < avail.w) (hah : 0 < avail.h) :
    (compute_canvas_rect avail (rw, rh)).w =
      ⌊(rw : ℚ) * min ((avail.w : ℚ) / (rw : ℚ)) ((avail.h : ℚ) / (rh : ℚ))⌋ ∧
    (compute_canvas_rect avail (rw, rh)).h =
      ⌊(rh : ℚ) * min ((avail.w : ℚ) / (rw : ℚ)) ((avail.h : ℚ) / (rh : ℚ))⌋ ∧
    |(compute_canvas_rect avail (rw, rh)).w * rh -
      (compute_canvas_rect avail (rw, rh)).h * rw| < max rw rh ∧
    (0 ≤ (compute_canvas_rect avail (rw, rh)).x - avail.x ∧
      |((avail.x + avail.w) - ((compute_canvas_rect avail (rw, rh)).x +
          (compute_canvas_rect avail (rw, rh)).w)) -
        ((compute_canvas_rect avail (rw, rh)).x - avail.x)| ≤ 1) ∧
    (0 ≤ (compute_canvas_rect avail (rw, rh)).y - avail.y ∧
      |((avail.y + avail.h) - ((compute_canvas_rect avail (rw, rh)).y +
          (compute_canvas_rect avail (rw, rh)).h)) -
        ((compute_canvas_rect avail (rw, rh)).y - avail.y)| ≤ 1) := by
  have hrwQ : (0 : ℚ) < (rw : ℚ) := by exact_mod_cast hrw
  have hrhQ : (0 : ℚ) < (rh : ℚ) := by exact_mod_cast hrh
  have hawQ : (0 : ℚ) < (avail.w : ℚ) := by exact_mod_cast haw
  have hahQ : (0 : ℚ) < (avail.h : ℚ) := by exact_mod_cast hah
  set sc : ℚ := min ((avail.w : ℚ) / (rw : ℚ)) ((avail.h : ℚ) / (rh : ℚ))
    with hsc
  have hsc0 : 0 ≤ sc := le_min (by positivity) (by positivity)
  have hq1 : (0 : ℚ) ≤ (rw : ℚ) * sc := mul_nonneg (le_of_lt hrwQ) hsc0
  have hq2 : (0 : ℚ) ≤ (rh : ℚ) * sc := mul_nonneg (le_of_lt hrhQ) hsc0
  have hrect := compute_canvas_rect_pos avail rw rh hrw hrh haw hah
  rw [hrect]
  simp only [pyInt_eq_floor hq1, pyInt_eq_floor hq2]
  have hfl1 : ((⌊(rw : ℚ) * sc⌋ : Int) : ℚ) ≤ (rw : ℚ) * sc := Int.floor_le _
  have hfl2 : (rw : ℚ) * sc - 1 < ((⌊(rw : ℚ) * sc⌋ : Int) : ℚ) :=
    Int.sub_one_lt_floor _
  have hfl3 : ((⌊(rh : ℚ) * sc⌋ : Int) : ℚ) ≤ (rh : ℚ) * sc := Int.floor_le _
  have hfl4 : (rh : ℚ) * sc - 1 < ((⌊(rh : ℚ) * sc⌋ : Int) : ℚ) :=
    Int.sub_one_lt_floor _
  have hwle : (rw : ℚ) * sc ≤ (avail.w : ℚ) := by
    calc (rw : ℚ) * sc ≤ (rw : ℚ) * ((avail.w : ℚ) / (rw : ℚ)) :=
          mul_le_mul_of_nonneg_left (min_le_left _ _) (le_of_lt hrwQ)
    _ = (avail.w : ℚ) := by field_simp
  have hhle : (rh : ℚ) * sc ≤ (avail.h : ℚ) := by
    calc (rh : ℚ) * sc ≤ (rh : ℚ) * ((avail.h : ℚ) / (rh : ℚ)) :=
          mul_le_mul_of_nonneg_left (min_le_right _ _) (le_of_lt hrhQ)
    _ = (avail.h : ℚ) := by field_simp
  have hcw_le : ⌊(rw : ℚ) * sc⌋ ≤ avail.w := by
    have h' := Int.floor_le_floor hwle
    simpa using h'
  have hch_le : ⌊(rh : ℚ) * sc⌋ ≤ avail.h := by
    have h' := Int.floor_le_floor hhle
    simpa using h'
  have hcw0 : 0 ≤ ⌊(rw : ℚ) * sc⌋ := Int.le_floor.mpr (by simpa using hq1)
  have hch0 : 0 ≤ ⌊(rh : ℚ) * sc⌋ := Int.le_floor.mpr (by simpa using hq2)
  refine ⟨trivial, trivial, ?_, ?_, ?_⟩
  · rw [abs_lt]
    have hb1 : ((⌊(rw : ℚ) * sc⌋ : ℚ) * (rh : ℚ) -
        (⌊(rh : ℚ) * sc⌋ : ℚ) * (rw : ℚ)) < (rw : ℚ) := by nlinarith
    have hb2 : (-(rh : ℚ)) < ((⌊(rw : ℚ) * sc⌋ : ℚ) * (rh : ℚ) -
        (⌊(rh : ℚ) * sc⌋ : ℚ) * (rw : ℚ)) := by nlinarith
    constructor
    · have h1 : -(rh : Int) < ⌊(rw : ℚ) * sc⌋ * rh - ⌊(rh : ℚ) * sc⌋ * rw := by
        exact_mod_cast hb2
      have h2 : -(max rw rh) ≤ -rh := neg_le_neg (le_max_right _ _)
      omega
    · have h1 : ⌊(rw : ℚ) * sc⌋ * rh - ⌊(rh : ℚ) * sc⌋ * rw < rw := by
        exact_mod_cast hb1
      have h2 : rw ≤ max rw rh := le_max_left _ _
      omega
  · simp only [pyFloorDiv, Int.fdiv_eq_ediv _ (by norm_num : (0 : Int) ≤ 2)]
    constructor
    · omega
    · rw [abs_le]
      omega
  · simp only [pyFloorDiv, Int.fdiv_eq_ediv _ (by norm_num : (0 : Int) ≤ 2)]
    constructor
    · omega
    · rw [abs_le]
      omega

/-- Witness for C5 at a concrete available rectangle and ratio. -/
theorem C5_centered_aspect_rect_witness :
    (0 : Int) < 16 ∧ (0 : Int) < 9 ∧
    ((compute_canvas_rect ⟨0, 0, 100, 60⟩ (16, 9)).w =
        ⌊(16 : ℚ) * min ((100 : Int) / (16 : ℚ) : ℚ)
          ((60 : Int) / (9 : ℚ) : ℚ)⌋ ∧ True) := by
  refine ⟨by decide, by decide, ?_, trivial⟩
  have h := (C5_centered_aspect_rect ⟨0, 0, 100, 60⟩ 16 9 (by decide)
    (by decide) (by decide) (by decide)).1
  simpa using h

/-- C10: the tab bar recognises the `+` trigger purely by tab text —
`isPlusIndex i` holds exactly when the tab at `i` reads `"+"` — and a
press on any `+`-labelled tab (also a real document renamed to `"+"`)
emits `plusClicked` without changing the selection; the widget's own
bookkeeping instead identifies the sentinel by page identity: in the
concrete renamed-document state, `_plusIndex` still points at the real
sentinel and closing the renamed document really removes it. -/
theorem C10_plus_identified_by_label (s : Strip) (i : Int) :
    (isPlusIndex s i = true ↔
      (0 ≤ i ∧ i < s.count ∧ s.labelAt i = some "+")) ∧
    (isPlusIndex s i = true → mousePress s i = (s, [Event.plusClicked])) ∧
    (isPlusIndex ⟨[⟨Page.canvas 0, "Untitled 1"⟩, ⟨Page.canvas 1, "+"⟩,
        plusTab], 1, false, false, false⟩ 1 = true ∧
      Strip.widgetAt ⟨[⟨Page.canvas 0, "Untitled 1"⟩, ⟨Page.canvas 1, "+"⟩,
        plusTab], 1, false, false, false⟩ 1 = some (Page.canvas 1) ∧
      mousePress ⟨[⟨Page.canvas 0, "Untitled 1"⟩, ⟨Page.canvas 1, "+"⟩,
          plusTab], 1, false, false, false⟩ 1 =
        (⟨[⟨Page.canvas 0, "Untitled 1"⟩, ⟨Page.canvas 1, "+"⟩, plusTab], 1,
          false, false, false⟩, [Event.plusClicked]) ∧
      Strip.plusIdx ⟨[⟨Page.canvas 0, "Untitled 1"⟩, ⟨Page.canvas 1, "+"⟩,
        plusTab], 1, false, false, false⟩ = 2 ∧
      renameCurrentTab (insertCanvasTab
          ((insertCanvasTab initialStrip 0 "Untitled 1").1) 1 "B").1 "+" =
        ⟨[⟨Page.canvas 0, "Untitled 1"⟩, ⟨Page.canvas 1, "+"⟩, plusTab], 1,
          false, false, false⟩ ∧
      (onClose ⟨[⟨Page.canvas 0, "Untitled 1"⟩, ⟨Page.canvas 1, "+"⟩,
          plusTab], 1, false, false, false⟩ 1).1.tabs =
        [⟨Page.canvas 0, "Untitled 1"⟩, plusTab]) := by
  refine ⟨?_, ?_, by decide, by decide, by decide, by decide, by decide,
    by decide⟩
  · simp [isPlusIndex, and_assoc]
  · intro h
    simp [mousePress, h]

/-- Witness for C10: on the renamed-document state, a press on the
`+`-labelled document emits `plusClicked` and leaves the state alone. -/
theorem C10_plus_identified_by_label_witness :
    mousePress ⟨[⟨Page.canvas 0, "Untitled 1"⟩, ⟨Page.canvas 1, "+"⟩,
        plusTab], 1, false, false, false⟩ 1 =
      (⟨[⟨Page.canvas 0, "Untitled 1"⟩, ⟨Page.canvas 1, "+"⟩, plusTab], 1,
        false, false, false⟩, [Event.plusClicked]) :=
  (C10_plus_identified_by_label ⟨[⟨Page.canvas 0, "Untitled 1"⟩,
    ⟨Page.canvas 1, "+"⟩, plusTab], 1, false, false, false⟩ 1).2.1 (by decide)

end PEdit
